import Mathlib

/-!
A shallow embedding of the forecast data model and client logic of
custom_components/solar_manager_forecast/solar_manager_forecast.py.

Modelling conventions:
- An aware Python datetime is a pair of an absolute instant (microseconds
  since the Unix epoch, field utc) and the fixed UTC offset of its tzinfo
  (microseconds, field off).  Aware datetimes compare by instant, exactly as
  in Python; wall-clock field manipulation (replace of minute, second,
  microsecond) acts on utc + off.
- Timezone objects are fixed UTC offsets in microseconds (the claims only
  exercise fixed-offset zones such as UTC).
- Insertion-ordered Python dicts are association lists; assignment updates
  the value in place when the key is present and appends otherwise.
- Exact real arithmetic: a period energy power_w * (delta_micros / 3.6e9)
  hours is represented by its integer numerator power_w * delta_micros over
  the fixed denominator microsPerHour = 3600000000, so Python round (round
  half to even) becomes integer division with a half-even tie break.  On all
  inputs appearing below this coincides with the float computation of the
  source.
- Fallible Python code (ValueError from int() and
  datetime.fromisoformat()) is modelled with Except.
-/

/-- An aware Python datetime: absolute instant and tzinfo offset, both in
microseconds. -/
structure DT where
  utc : Int
  off : Int
deriving DecidableEq, Repr

/-- A JSON scalar value as it can appear in the pW field of a feed entry. -/
inductive JV where
  | jnull : JV
  | jint : Int → JV
  | jstr : String → JV
deriving DecidableEq, Repr

/-- One raw feed entry: an optional t field (ISO-8601 string) and an
optional pW field. -/
structure Entry where
  t : Option String
  pW : Option JV
deriving DecidableEq, Repr

/-- A Python exception escaping the construction code (ValueError). -/
inductive PyErr where
  | valueError : PyErr
deriving DecidableEq, Repr

/-- Microseconds in one hour; the common denominator of all exact period
energies. -/
def microsPerHour : Int := 3600000000

/-- Value of a decimal digit character. -/
def digitVal (c : Char) : Option Nat :=
  if c.isDigit then some (c.toNat - 48) else none

/-- Two-digit decimal number. -/
def twoDigits (a b : Char) : Option Nat := do
  let x ← digitVal a
  let y ← digitVal b
  pure (10 * x + y)

/-- Four-digit decimal number. -/
def fourDigits (a b c d : Char) : Option Nat := do
  let x ← twoDigits a b
  let y ← twoDigits c d
  pure (100 * x + y)

/-- Days from 1970-01-01 to the civil date y-m-d (proleptic Gregorian),
the standard days-from-civil computation. -/
def daysFromCivil (y m d : Nat) : Int :=
  let yy := if m ≤ 2 then y - 1 else y
  let era := yy / 400
  let yoe := yy % 400
  let mp := (m + 9) % 12
  let doy := (153 * mp + 2) / 5 + (d - 1)
  let doe := yoe * 365 + yoe / 4 - yoe / 100 + doy
  ((era * 146097 + doe : Nat) : Int) - 719468

/-- Models datetime.fromisoformat restricted to the offset-carrying shape
YYYY-MM-DDTHH:MM:SS+HH:MM that the feed produces after the source replaces a
literal Z suffix with +00:00; every other shape yields none (the source
would raise ValueError on malformed strings, and offset-less strings do not
occur in the feed). -/
def parseIso (s : String) : Option DT :=
  match s.toList with
  | [y1, y2, y3, y4, c1, m1, m2, c2, d1, d2, c3, h1, h2, c4, n1, n2, c5, s1, s2,
     sg, o1, o2, c6, p1, p2] =>
    if c1 = '-' ∧ c2 = '-' ∧ c3 = 'T' ∧ c4 = ':' ∧ c5 = ':' ∧ c6 = ':' ∧
       (sg = '+' ∨ sg = '-') then
      match fourDigits y1 y2 y3 y4, twoDigits m1 m2, twoDigits d1 d2,
            twoDigits h1 h2, twoDigits n1 n2, twoDigits s1 s2,
            twoDigits o1 o2, twoDigits p1 p2 with
      | some y, some mo, some da, some hh, some mi, some ss, some oh, some om =>
        if 1 ≤ y ∧ 1 ≤ mo ∧ mo ≤ 12 ∧ 1 ≤ da ∧ da ≤ 31 ∧ hh ≤ 23 ∧ mi ≤ 59 ∧
           ss ≤ 59 ∧ oh ≤ 23 ∧ om ≤ 59 then
          let offSec : Int :=
            (if sg = '+' then 1 else -1) * ((oh : Int) * 3600 + (om : Int) * 60)
          let wallSec : Int :=
            daysFromCivil y mo da * 86400 + ((hh * 3600 + mi * 60 + ss : Nat) : Int)
          some ⟨(wallSec - offSec) * 1000000, offSec * 1000000⟩
        else none
      | _, _, _, _, _, _, _, _ => none
    else none
  | _ => none

/-- Models t_str.replace of the single character Z by +00:00: Python
str.replace substitutes every occurrence left to right, which for a
one-character pattern is a per-character substitution. -/
def replaceZChars : List Char → List Char
  | [] => []
  | c :: rest =>
    if c = 'Z' then '+' :: '0' :: '0' :: ':' :: '0' :: '0' :: replaceZChars rest
    else c :: replaceZChars rest

/-- t_str.replace of Z by +00:00, on strings. -/
def pyReplaceZ (s : String) : String := String.mk (replaceZChars s.toList)

/-- Python int() applied to a string: optional sign then decimal digits;
anything else raises (none). -/
def decDigitsVal (cs : List Char) : Option Nat :=
  match cs with
  | [] => none
  | _ => cs.foldl (fun acc c => do
      let a ← acc
      let d ← digitVal c
      pure (10 * a + d)) (some 0)

/-- Python int() on a string. -/
def pyIntOfString (s : String) : Option Int :=
  match s.toList with
  | '-' :: rest => (decDigitsVal rest).map (fun n => -(n : Int))
  | '+' :: rest => (decDigitsVal rest).map (fun n => (n : Int))
  | rest => (decDigitsVal rest).map (fun n => (n : Int))

/-- Models int(entry.get("pW") or 0): an absent key and the falsy values
None, 0 and the empty string give 0; an integer passes through; any other
string goes through int() and may raise (none). -/
def pyIntOfPW : Option JV → Option Int
  | none => some 0
  | some JV.jnull => some 0
  | some (JV.jint n) => if n = 0 then some 0 else some n
  | some (JV.jstr s) => if s = "" then some 0 else pyIntOfString s

/-- Stable insertion placing x after every element whose key is not greater
than x's key; the insertion step of the stable-sort model of Python sorted. -/
def pyInsert {α κ : Type} [LinearOrder κ] (key : α → κ) (x : α) :
    List α → List α
  | [] => [x]
  | y :: ys => if key y < key x then y :: pyInsert key x ys else x :: y :: ys

/-- Models Python sorted(l, key=key): a stable ascending sort (any stable
sorting algorithm computes this same function). -/
def pySorted {α κ : Type} [LinearOrder κ] (key : α → κ) (l : List α) :
    List α :=
  l.foldr (pyInsert key) []

/-- Sort key used by from_solar_manager_data: the raw t string (the filter
guarantees the field is present).  Python compares strings lexicographically
by code point, which is the lexicographic order on the character list. -/
def entryKey (e : Entry) : List Char := (e.t.getD "").toList

/-- Python dict assignment d[k] = v on an insertion-ordered dict. -/
def dictSet (k : DT) (v : Int) : List (DT × Int) → List (DT × Int)
  | [] => [(k, v)]
  | (k1, v1) :: rest =>
    if k = k1 then (k, v) :: rest else (k1, v1) :: dictSet k v rest

/-- Python dict lookup d[k] (none when absent). -/
def dictGet (k : DT) : List (DT × Int) → Option Int
  | [] => none
  | (k1, v1) :: rest => if k = k1 then some v1 else dictGet k rest

/-- Models d[k] = d.get(k, 0) + v on an insertion-ordered dict. -/
def dictInsertAdd (k : DT) (v : Int) : List (DT × Int) → List (DT × Int)
  | [] => [(k, v)]
  | (k1, v1) :: rest =>
    if k = k1 then (k1, v1 + v) :: rest else (k1, v1) :: dictInsertAdd k v rest

/-- Python astimezone on an aware datetime with a fixed-offset target zone:
same instant, new offset. -/
def astz (d : DT) (tz : Int) : DT := ⟨d.utc, tz⟩

/-- The first loop of from_solar_manager_data over the sorted entries:
skip entries whose t is absent or falsy, parse t (after replacing Z with
+00:00), localize, convert pW, and accumulate timestamps_local and the
watts dict in iteration order.  A parse or int() failure raises. -/
def phase1 (tz : Int) (acc : List DT × List (DT × Int)) :
    List Entry → Except PyErr (List DT × List (DT × Int))
  | [] => Except.ok acc
  | e :: rest =>
    match e.t with
    | none => phase1 tz acc rest
    | some tStr =>
      if tStr = "" then phase1 tz acc rest
      else
        match parseIso (pyReplaceZ tStr) with
        | none => Except.error PyErr.valueError
        | some tUtc =>
          match pyIntOfPW e.pW with
          | none => Except.error PyErr.valueError
          | some p =>
            let tLocal := astz tUtc tz
            phase1 tz (acc.1 ++ [tLocal], dictSet tLocal p acc.2) rest

/-- t.replace(minute=0, second=0, microsecond=0): truncate the wall clock
to the hour, keeping the tzinfo. -/
def hourStart (t : DT) : DT :=
  let wall := t.utc + t.off
  let hs := wall - wall % microsPerHour
  ⟨hs - t.off, t.off⟩

/-- Round half to even on the exact rational n / d (d positive), Python
round on the exact value. -/
def roundHalfEvenScaled (n d : Int) : Int :=
  let f := n / d
  let r := n % d
  if 2 * r < d then f else if d < 2 * r then f + 1
  else if f % 2 = 0 then f else f + 1

/-- The second loop of from_solar_manager_data: for each timestamp its
validity interval ends at the next timestamp (or start + default interval
for the last one); non-positive intervals are skipped; the exact period
energy power_w * delta_hours is carried as the integer numerator
power_w * delta_micros over microsPerHour.  power_w is looked up in the
final watts dict, as the source does. -/
def periodsExact (watts : List (DT × Int)) (dflt : Int) :
    List DT → List (DT × Int)
  | [] => []
  | t1 :: rest =>
    let tEnd : DT :=
      match rest with
      | [] => ⟨t1.utc + dflt, t1.off⟩
      | t2 :: _ => t2
    let deltaMicros := tEnd.utc - t1.utc
    let powerW := (dictGet t1 watts).getD 0
    (if deltaMicros ≤ 0 then [] else [(t1, powerW * deltaMicros)]) ++
      periodsExact watts dflt rest

/-- The forecast snapshot built by Estimate.from_solar_manager_data. -/
structure Estimate where
  timezone : Int
  watts : List (DT × Int)
  wh_period : List (DT × Int)
  wh_hours : List (DT × Int)
deriving DecidableEq, Repr

/-- Estimate.from_solar_manager_data: filter entries lacking t, sort by the
raw t string (Python sorted is stable), run the two loops, round the period
energies into wh_period and the per-hour accumulated exact energies into
wh_hours. -/
def fromSolarManagerData (entries : List Entry) (tz : Int)
    (defaultInterval : Int := 900000000) : Except PyErr Estimate :=
  match phase1 tz ([], []) (pySorted entryKey (entries.filter fun e => e.t.isSome)) with
  | Except.error err => Except.error err
  | Except.ok (timestampsLocal, watts) =>
    let ps := periodsExact watts defaultInterval timestampsLocal
    let whPeriod := ps.foldl
      (fun m p => dictSet p.1 (roundHalfEvenScaled p.2 microsPerHour) m) []
    let whHoursAcc := ps.foldl
      (fun m p => dictInsertAdd (hourStart p.1) p.2 m) []
    let whHours := whHoursAcc.map fun p => (p.1, roundHalfEvenScaled p.2 microsPerHour)
    Except.ok ⟨tz, watts, whPeriod, whHours⟩

/-- The scan of _timed_value after the first element: keep the last known
value, stop as soon as a timestamp lies strictly beyond the query. -/
def timedLoop (q : DT) (value : Int) : List (DT × Int) → Int
  | [] => value
  | (t1, cv) :: rest => if q.utc < t1.utc then value else timedLoop q cv rest

/-- _timed_value: none on an empty dict; the first value when the query is
at or before the first timestamp; otherwise the scan. -/
def timedValue (q : DT) : List (DT × Int) → Option Int
  | [] => none
  | (t1, v1) :: rest => if q.utc ≤ t1.utc then some v1 else some (timedLoop q v1 rest)

/-- A query datetime: aware, or naive (wall clock only). -/
inductive QTime where
  | aware : DT → QTime
  | naive : Int → QTime
deriving DecidableEq, Repr

/-- The normalization at the top of power_production_at_time: a naive input
gets the timezone attached to its wall clock (replace tzinfo), an aware one
is converted (astimezone). -/
def normalizeQ (q : QTime) (tz : Int) : DT :=
  match q with
  | QTime.aware d => astz d tz
  | QTime.naive w => ⟨w - tz, tz⟩

/-- Python x or 0 on an Optional int: None and 0 become 0. -/
def pyOrZero : Option Int → Int
  | none => 0
  | some v => if v = 0 then 0 else v

/-- Estimate.power_production_at_time. -/
def powerProductionAtTime (est : Estimate) (q : QTime) : Int :=
  pyOrZero (timedValue (normalizeQ q est.timezone) est.watts)

/-- now.replace(minute=59, second=59, microsecond=999): pin the wall-clock
minute, second and microsecond fields, keeping the tzinfo. -/
def pinStart (t : DT) : DT :=
  let wall := t.utc + t.off
  let pinned := wall - wall % microsPerHour + ((59 * 60 + 59) * 1000000 + 999)
  ⟨pinned - t.off, t.off⟩

/-- _interval_value_sum: add up the values whose timestamp lies strictly
after s and at or before e. -/
def intervalValueSum (s e : DT) (data : List (DT × Int)) : Int :=
  data.foldl (fun tot p => if s.utc < p.1.utc ∧ p.1.utc ≤ e.utc then tot + p.2 else tot) 0

/-- Estimate.sum_energy_production, with the nondeterministic now() passed
explicitly: pin now, add period_hours hours, sum wh_hours over the interval. -/
def sumEnergyProduction (est : Estimate) (now : DT) (periodHours : Int) : Int :=
  let start := pinStart now
  let untilT : DT := ⟨start.utc + periodHours * microsPerHour, start.off⟩
  intervalValueSum start untilT est.wh_hours

/-- The shape of the data field of a parsed response body, as far as the
client inspects it: a list of entries, or anything else. -/
inductive DataField where
  | list : List Entry → DataField
  | other : DataField
deriving DecidableEq

/-- A parsed response body: a dict with an optional data key, or any
non-dict JSON value (list, string, number, null ...). -/
inductive Payload where
  | obj : Option DataField → Payload
  | nonObj : Payload
deriving DecidableEq

/-- What SolarManagerSolarForecast.estimate can raise after a successful
HTTP round trip: the typed SolarManagerForecastError, the AttributeError
from calling .get on a non-dict payload, or an escaping construction
exception. -/
inductive FetchErr where
  | solarManagerForecastError : FetchErr
  | attributeError : FetchErr
  | pyError : PyErr → FetchErr
deriving DecidableEq, Repr

/-- The post-transport logic of SolarManagerSolarForecast.estimate on a
parsed response body: payload.get("data") raises AttributeError on a
non-dict; a missing data key or a non-list value raises the typed error;
otherwise the result is Estimate.from_solar_manager_data(data, timezone).
One call performs exactly this computation on one response (no retry, no
caching). -/
def estimateFromPayload (p : Payload) (tz : Int) : Except FetchErr Estimate :=
  match p with
  | Payload.nonObj => Except.error FetchErr.attributeError
  | Payload.obj none => Except.error FetchErr.solarManagerForecastError
  | Payload.obj (some DataField.other) => Except.error FetchErr.solarManagerForecastError
  | Payload.obj (some (DataField.list entries)) =>
    match fromSolarManagerData entries tz with
    | Except.error e => Except.error (FetchErr.pyError e)
    | Except.ok est => Except.ok est

/-- Modelled from the spec: the value of the latest sample whose timestamp
is at or before the query. -/
def lastLeValue (q : DT) (data : List (DT × Int)) : Option Int :=
  ((data.filter fun p => p.1.utc ≤ q.utc).map Prod.snd).getLast?

/-- Modelled from the spec: the step-function lookup policy of 4.2 of the
spec.  Empty series: absent; query at or before the first timestamp: first
value; otherwise the value of the latest sample whose timestamp is at or
before the query. -/
def specPowerLookup (q : DT) (data : List (DT × Int)) : Option Int :=
  match data with
  | [] => none
  | (t1, v1) :: rest =>
    if q.utc ≤ t1.utc then some v1 else lastLeValue q ((t1, v1) :: rest)

/-- Modelled from the spec: energyBetween sums the wh_hours entries whose
key lies in the half-open-from-the-left interval from the pinned start
(exclusive) to start + hoursAhead hours (inclusive). -/
def specEnergyBetween (est : Estimate) (now : DT) (hrs : Int) : Int :=
  let start := pinStart now
  let endT : DT := ⟨start.utc + hrs * microsPerHour, start.off⟩
  ((est.wh_hours.filter fun p => start.utc < p.1.utc ∧ p.1.utc ≤ endT.utc).map Prod.snd).sum

/-- Sum of the values of a series. -/
def sumValues (m : List (DT × Int)) : Int := (m.map Prod.snd).sum


deriving instance DecidableEq for Except

/-- Does from_solar_manager_data keep this entry: present and truthy t. -/
def keepsEntry (e : Entry) : Bool :=
  match e.t with
  | none => false
  | some s => if s = "" then false else true

/-- The timestamps_local list produced while building an Estimate (empty
when construction raises). -/
def localTimestamps (entries : List Entry) (tz : Int) : List DT :=
  match phase1 tz ([], []) (pySorted entryKey (entries.filter fun e => e.t.isSome)) with
  | Except.ok (ts, _) => ts
  | Except.error _ => []

/-- 2024-01-01T10:00:00Z as an aware UTC datetime. -/
def t1000 : DT := ⟨1704103200000000, 0⟩

/-- 2024-01-01T10:15:00Z. -/
def t1015 : DT := ⟨1704104100000000, 0⟩

/-- 2024-01-01T10:30:00Z. -/
def t1030 : DT := ⟨1704105000000000, 0⟩

/-- The three-sample payload of the concrete scenario of the spec. -/
def c2entries : List Entry :=
  [⟨some "2024-01-01T10:00:00Z", some (JV.jint 100)⟩,
   ⟨some "2024-01-01T10:15:00Z", some (JV.jint 200)⟩,
   ⟨some "2024-01-01T10:30:00Z", some (JV.jint 0)⟩]

/-- The Estimate built from c2entries in UTC. -/
def c2estimate : Estimate :=
  ⟨0, [(t1000, 100), (t1015, 200), (t1030, 0)],
      [(t1000, 25), (t1015, 50), (t1030, 0)],
      [(t1000, 75)]⟩

/-- 2024-01-01T10:30:30Z: inside the 10:00 hour, not on a minute boundary. -/
def now1030s : DT := ⟨1704105030000000, 0⟩

/-- Two entries whose ISO strings carry differing UTC offsets: the second
one sorts after the first as a string but denotes the earlier instant. -/
def c5entries : List Entry :=
  [⟨some "2024-01-01T06:00:00Z", some (JV.jint 1)⟩,
   ⟨some "2024-01-01T10:00:00+05:00", some (JV.jint 2)⟩]

/-- 2024-01-01T06:00:00Z. -/
def t0600 : DT := ⟨1704088800000000, 0⟩

/-- 2024-01-01T10:00:00+05:00, i.e. 05:00:00Z. -/
def t0500 : DT := ⟨1704085200000000, 0⟩

/-- The Estimate built from c5entries in UTC: watts keys out of time order. -/
def c5estimate : Estimate :=
  ⟨0, [(t0600, 1), (t0500, 2)], [(t0500, 0)], [(t0500, 0)]⟩

/-- Three samples of 6 W every 15 minutes: each period holds exactly 1.5 Wh
and the 10:00 hour accumulates exactly 4.5 Wh, so half-even rounding sends
the periods to 2 Wh each but the hour to 4 Wh. -/
def c8entries : List Entry :=
  [⟨some "2024-01-01T10:00:00Z", some (JV.jint 6)⟩,
   ⟨some "2024-01-01T10:15:00Z", some (JV.jint 6)⟩,
   ⟨some "2024-01-01T10:30:00Z", some (JV.jint 6)⟩]

/-- The Estimate built from c8entries in UTC. -/
def c8estimate : Estimate :=
  ⟨0, [(t1000, 6), (t1015, 6), (t1030, 6)],
      [(t1000, 2), (t1015, 2), (t1030, 2)],
      [(t1000, 4)]⟩

/-- An estimate with no samples at all. -/
def emptyEstimate : Estimate := ⟨0, [], [], []⟩

theorem foldl_interval_add (s e : DT) (data : List (DT × Int)) : ∀ i : Int,
    data.foldl (fun tot p => if s.utc < p.1.utc ∧ p.1.utc ≤ e.utc then tot + p.2 else tot) i =
    i + ((data.filter fun p => s.utc < p.1.utc ∧ p.1.utc ≤ e.utc).map Prod.snd).sum := by
  induction data with
  | nil => intro i; simp
  | cons hd tl ih =>
    intro i
    by_cases h : s.utc < hd.1.utc ∧ hd.1.utc ≤ e.utc
    · rw [List.foldl_cons, if_pos h, ih, List.filter_cons_of_pos (by simpa using h)]
      simp only [List.map_cons, List.sum_cons]
      omega
    · rw [List.foldl_cons, if_neg h, ih, List.filter_cons_of_neg (by simpa using h)]

theorem intervalValueSum_eq_filter_sum (s e : DT) (data : List (DT × Int)) :
    intervalValueSum s e data =
    ((data.filter fun p => s.utc < p.1.utc ∧ p.1.utc ≤ e.utc).map Prod.snd).sum := by
  have h := foldl_interval_add s e data 0
  simpa [intervalValueSum] using h

/-- C2: building an Estimate from exactly the three samples
10:00Z/100W, 10:15Z/200W, 10:30Z/0W with timezone UTC yields
wh_period 25/50/0 Wh (the last sample using the default 15-minute
trailing interval) and a single wh_hours bucket of 75 Wh at 10:00. -/
theorem c2_concrete_scenario :
    fromSolarManagerData c2entries 0 = Except.ok c2estimate ∧
    c2estimate.wh_period = [(t1000, 25), (t1015, 50), (t1030, 0)] ∧
    c2estimate.wh_hours = [(t1000, 75)] := by
  refine ⟨by decide, by decide, by decide⟩

/-- C3: sum_energy_production sums exactly the wh_hours values whose key
lies in the interval from the pinned start (current time with minute,
second and microsecond pinned to 59:59.000999, exclusive) to start plus
period_hours hours (inclusive); a key at start is excluded, a key at the
end is included, and the empty series sums to 0. -/
theorem c3_energy_between (est : Estimate) (now : DT) (periodHours : Int) :
    sumEnergyProduction est now periodHours = specEnergyBetween est now periodHours ∧
    (est.wh_hours = [] → sumEnergyProduction est now periodHours = 0) ∧
    (∀ k v, est.wh_hours = [(k, v)] → k.utc = (pinStart now).utc →
      sumEnergyProduction est now periodHours = 0) ∧
    (∀ k v, est.wh_hours = [(k, v)] →
      k.utc = (pinStart now).utc + periodHours * microsPerHour →
      (pinStart now).utc < k.utc →
      sumEnergyProduction est now periodHours = v) := by
  refine ⟨?_, ?_, ?_, ?_⟩
  · simp [sumEnergyProduction, specEnergyBetween, intervalValueSum_eq_filter_sum]
  · intro h
    simp [sumEnergyProduction, intervalValueSum, h]
  · intro k v h hk
    simp only [sumEnergyProduction, intervalValueSum_eq_filter_sum, h]
    have : ¬ ((pinStart now).utc < k.utc) := by omega
    simp [this]
  · intro k v h hk hlt
    simp only [sumEnergyProduction, intervalValueSum_eq_filter_sum, h]
    have h2 : k.utc ≤ (pinStart now).utc + periodHours * microsPerHour := by omega
    simp [hlt, h2]

/-- Witness for C3 at the concrete scenario estimate with now =
2024-01-01T10:30:30Z and a one-hour horizon. -/
theorem c3_energy_between_witness :
    sumEnergyProduction c2estimate now1030s 1 = specEnergyBetween c2estimate now1030s 1 ∧
    specEnergyBetween c2estimate now1030s 1 = 0 := by
  exact ⟨(c3_energy_between c2estimate now1030s 1).1, by decide⟩

/-- C4 counterexample: for the concretely built estimate whose only
wh_hours entry (75 Wh) sits exactly at the top of the hour containing
now = 2024-01-01T10:30:30Z (not on a minute boundary),
sum_energy_production with period 0 returns 0, not the hour's energy. -/
theorem c4_counterexample :
    fromSolarManagerData c2entries 0 = Except.ok c2estimate ∧
    c2estimate.wh_hours = [(t1000, 75)] ∧
    hourStart now1030s = t1000 ∧
    (now1030s.utc + now1030s.off) % 60000000 ≠ 0 ∧
    sumEnergyProduction c2estimate now1030s 0 = 0 ∧
    (0 : Int) ≠ 75 := by
  refine ⟨by decide, by decide, by decide, by decide, by decide, by decide⟩

/-- C4 amended: sum_energy_production with period_hours = 0 always returns
0: the interval runs from the pinned start exclusive to start + 0 hours
inclusive, which is empty, so in particular an entry at the top of the
current hour is not included. -/
theorem c4_amended (est : Estimate) (now : DT) :
    sumEnergyProduction est now 0 = 0 := by
  have hempty : ∀ p : DT × Int,
      ¬ ((pinStart now).utc < p.1.utc ∧ p.1.utc ≤ (pinStart now).utc + 0 * microsPerHour) := by
    intro p
    omega
  simp only [sumEnergyProduction, intervalValueSum_eq_filter_sum]
  rw [List.filter_eq_nil_iff.mpr fun a _ => by
    simp only [decide_eq_true_eq]
    exact hempty a]
  simp

/-- C7 counterexample: on an estimate with empty watts,
power_production_at_time itself returns the number 0 (the or-0 fallback
lives inside the method), while the helper _timed_value is what returns
the absent value. -/
theorem c7_counterexample :
    powerProductionAtTime emptyEstimate (QTime.aware ⟨0, 0⟩) = 0 ∧
    timedValue ⟨0, 0⟩ ([] : List (DT × Int)) = none := by
  refine ⟨by decide, by decide⟩

/-- C7 amended: when watts is empty the helper _timed_value returns the
absent value, and power_production_at_time maps that absent value to 0
itself (via the or-0 fallback inside the method), for every query time. -/
theorem c7_amended (est : Estimate) (q : QTime) (h : est.watts = []) :
    timedValue (normalizeQ q est.timezone) est.watts = none ∧
    powerProductionAtTime est q = 0 := by
  rw [h]
  exact ⟨rfl, by simp [powerProductionAtTime, h, timedValue, pyOrZero]⟩

/-- Witness for C7 at the empty estimate. -/
theorem c7_amended_witness :
    emptyEstimate.watts = [] ∧
    (timedValue (normalizeQ (QTime.aware ⟨0, 0⟩) emptyEstimate.timezone) emptyEstimate.watts = none ∧
     powerProductionAtTime emptyEstimate (QTime.aware ⟨0, 0⟩) = 0) := by
  exact ⟨by decide, c7_amended emptyEstimate (QTime.aware ⟨0, 0⟩) (by decide)⟩

/-- C9 counterexample: on a response body that is not a dict (a JSON array,
string, number or null), the data field is equally absent, yet estimate
raises AttributeError from payload.get rather than the typed
SolarManagerForecastError. -/
theorem c9_counterexample :
    estimateFromPayload Payload.nonObj 0 = Except.error FetchErr.attributeError ∧
    FetchErr.attributeError ≠ FetchErr.solarManagerForecastError := by
  refine ⟨by decide, by decide⟩

/-- C9 amended: when the parsed body is a dict, a missing data key or a
non-list data value raises the typed SolarManagerForecastError, and a list
value yields exactly from_solar_manager_data(data, timezone) (with any
construction exception propagating); a non-dict body instead raises
AttributeError.  One call is a pure function of one response: no retry and
no caching. -/
theorem c9_amended (tz : Int) :
    estimateFromPayload (Payload.obj none) tz =
      Except.error FetchErr.solarManagerForecastError ∧
    estimateFromPayload (Payload.obj (some DataField.other)) tz =
      Except.error FetchErr.solarManagerForecastError ∧
    estimateFromPayload Payload.nonObj tz = Except.error FetchErr.attributeError ∧
    (∀ entries : List Entry,
      estimateFromPayload (Payload.obj (some (DataField.list entries))) tz =
        (fromSolarManagerData entries tz).mapError FetchErr.pyError) := by
  refine ⟨rfl, rfl, rfl, ?_⟩
  intro entries
  cases h : fromSolarManagerData entries tz <;>
    simp [estimateFromPayload, h, Except.mapError]

/-- C5 counterexample: feeding two entries whose ISO strings carry
differing UTC offsets (06:00Z and 10:00+05:00, the latter denoting
05:00Z) builds watts keys in string order, which is not increasing in
time. -/
theorem c5_counterexample :
    fromSolarManagerData c5entries 0 = Except.ok c5estimate ∧
    c5estimate.watts.map Prod.fst = [t0600, t0500] ∧
    ¬ (c5estimate.watts.map Prod.fst).Pairwise (fun a b => a.utc < b.utc) := by
  refine ⟨by decide, by decide, by decide⟩

/-- C6 counterexample: a single entry with a well-formed t but a
non-numeric pW string makes construction raise ValueError (from int())
instead of silently excluding the entry. -/
theorem c6_counterexample :
    fromSolarManagerData [⟨some "2024-01-01T10:00:00Z", some (JV.jstr "abc")⟩] 0 =
      Except.error PyErr.valueError := by
  decide

/-- C8 counterexample: for the estimate built from three 6 W samples 15
minutes apart, the wh_period sum is 6 while the wh_hours sum is 4, a gap
of 2 that exceeds 0.5 times the 3 periods. -/
theorem c8_counterexample :
    fromSolarManagerData c8entries 0 = Except.ok c8estimate ∧
    sumValues c8estimate.wh_period = 6 ∧
    sumValues c8estimate.wh_hours = 4 ∧
    c8estimate.wh_period.length = 3 ∧
    ¬ (2 * (sumValues c8estimate.wh_period - sumValues c8estimate.wh_hours) ≤ 3) := by
  refine ⟨by decide, by decide, by decide, by decide, by decide⟩

theorem pyOrZero_eq_getD (o : Option Int) : pyOrZero o = o.getD 0 := by
  cases o with
  | none => rfl
  | some v =>
    by_cases h : v = 0 <;> simp [pyOrZero, h]

theorem timedLoop_eq_getLastD (q : DT) (l : List (DT × Int))
    (hl : l.Pairwise fun a b => a.1.utc < b.1.utc) : ∀ v : Int,
    timedLoop q v l = ((l.filter fun p => p.1.utc ≤ q.utc).map Prod.snd).getLastD v := by
  induction l with
  | nil => intro v; simp [timedLoop]
  | cons hd rest ih =>
    intro v
    obtain ⟨t1, cv⟩ := hd
    rw [List.pairwise_cons] at hl
    by_cases hq : q.utc < t1.utc
    · have hdrop : ∀ p ∈ rest, ¬ (p.1.utc ≤ q.utc) := by
        intro p hp
        have h2 : t1.utc < p.1.utc := hl.1 p hp
        omega
      rw [List.filter_cons_of_neg (by simpa using not_le.mpr hq)]
      rw [List.filter_eq_nil_iff.mpr fun a ha => by simpa using hdrop a ha]
      simp [timedLoop, if_pos hq]
    · have hle : t1.utc ≤ q.utc := by omega
      rw [List.filter_cons_of_pos (by simpa using hle)]
      simp only [timedLoop, if_neg hq, List.map_cons, List.getLastD_cons]
      exact ih hl.2 cv

theorem timedValue_eq_specPowerLookup (q : DT) (l : List (DT × Int))
    (hl : l.Pairwise fun a b => a.1.utc < b.1.utc) :
    timedValue q l = specPowerLookup q l := by
  cases l with
  | nil => rfl
  | cons hd rest =>
    obtain ⟨t1, v1⟩ := hd
    rw [List.pairwise_cons] at hl
    by_cases hq : q.utc ≤ t1.utc
    · simp [timedValue, specPowerLookup, if_pos hq]
    · have ht : t1.utc ≤ q.utc := by omega
      simp only [timedValue, specPowerLookup, if_neg hq, lastLeValue]
      rw [List.filter_cons_of_pos (by simpa using ht), List.map_cons,
        List.getLast?_cons, timedLoop_eq_getLastD q rest hl.2 v1,
        List.getLastD_eq_getLast?]

theorem pairwise_fst_le_getLast (l : List (DT × Int))
    (hl : l.Pairwise fun a b => a.1.utc < b.1.utc) (hne : l ≠ []) :
    ∀ p ∈ l, p.1.utc ≤ (l.getLast hne).1.utc := by
  induction l with
  | nil => exact absurd rfl hne
  | cons hd rest ih =>
    rw [List.pairwise_cons] at hl
    intro p hp
    cases rest with
    | nil =>
      rcases List.mem_singleton.mp hp with h
      rw [h]
      exact le_refl _
    | cons b rest2 =>
      rw [List.getLast_cons (List.cons_ne_nil b rest2)]
      rcases List.mem_cons.mp hp with h | h
      · subst h
        have hmem := List.getLast_mem (List.cons_ne_nil b rest2)
        have := hl.1 _ hmem
        omega
      · exact ih hl.2 (List.cons_ne_nil b rest2) p h

theorem filter_le_self_getLast (l : List (DT × Int))
    (hl : l.Pairwise fun a b => a.1.utc < b.1.utc) :
    ∀ p ∈ l, ((l.filter fun x => x.1.utc ≤ p.1.utc).map Prod.snd).getLast? = some p.2 := by
  induction l with
  | nil => intro p hp; cases hp
  | cons hd rest ih =>
    rw [List.pairwise_cons] at hl
    intro p hp
    rcases List.mem_cons.mp hp with h | h
    · subst h
      rw [List.filter_cons_of_pos (by simp)]
      rw [List.filter_eq_nil_iff.mpr fun a ha => by
        have := hl.1 a ha
        simp
        omega]
      rfl
    · have hlt := hl.1 p h
      rw [List.filter_cons_of_pos (by simp; omega), List.map_cons,
        List.getLast?_cons, ih hl.2 p h]
      rfl

/-- C1: for every Estimate whose watts series is non-empty (and, as the
source docstring assumes, time-ordered) and every query time, after
normalizing the query to the Estimate's timezone, _timed_value implements
the step-function lookup of the spec (first value at or before the first
timestamp, otherwise the value of the latest sample at or before the
query), power_production_at_time returns that value, a query at or after
the last timestamp gets the last value, and a query equal to a stored
timestamp gets that sample's own value. -/
theorem c1_step_lookup (est : Estimate)
    (hs : est.watts.Pairwise fun a b => a.1.utc < b.1.utc)
    (hne : est.watts ≠ []) (q : QTime) :
    timedValue (normalizeQ q est.timezone) est.watts =
      specPowerLookup (normalizeQ q est.timezone) est.watts ∧
    powerProductionAtTime est q =
      (specPowerLookup (normalizeQ q est.timezone) est.watts).getD 0 ∧
    (∀ p0, est.watts.head? = some p0 →
      (normalizeQ q est.timezone).utc ≤ p0.1.utc →
      timedValue (normalizeQ q est.timezone) est.watts = some p0.2) ∧
    (∀ pl, est.watts.getLast? = some pl →
      pl.1.utc ≤ (normalizeQ q est.timezone).utc →
      timedValue (normalizeQ q est.timezone) est.watts = some pl.2) ∧
    (∀ p ∈ est.watts, (normalizeQ q est.timezone).utc = p.1.utc →
      timedValue (normalizeQ q est.timezone) est.watts = some p.2) := by
  set d := normalizeQ q est.timezone with hd
  have hA := timedValue_eq_specPowerLookup d est.watts hs
  refine ⟨hA, ?_, ?_, ?_, ?_⟩
  · rw [powerProductionAtTime, pyOrZero_eq_getD, ← hd, hA]
  · intro p0 hp0 hle
    cases hw : est.watts with
    | nil => exact absurd hw hne
    | cons hd1 rest =>
      rw [hw] at hp0
      have : p0 = hd1 := by
        simpa using hp0.symm
      subst this
      obtain ⟨t1, v1⟩ := p0
      simp only [timedValue]
      rw [if_pos hle]
  · intro pl hpl hle
    rw [hA]
    cases hw : est.watts with
    | nil => exact absurd hw hne
    | cons hd1 rest =>
      obtain ⟨t1, v1⟩ := hd1
      rw [hw] at hpl hs
      rw [List.pairwise_cons] at hs
      by_cases hq : d.utc ≤ t1.utc
      · cases rest with
        | nil =>
          have : pl = (t1, v1) := by simpa using hpl.symm
          subst this
          simp [specPowerLookup, if_pos hq]
        | cons b rest2 =>
          rw [List.getLast?_cons_cons,
            List.getLast?_eq_getLast (b :: rest2) (List.cons_ne_nil b rest2)] at hpl
          have hplmem : pl ∈ b :: rest2 := by
            have := List.getLast_mem (List.cons_ne_nil b rest2)
            rwa [Option.some_inj.mp hpl] at this
          have h2 : t1.utc < pl.1.utc := hs.1 pl hplmem
          omega
      · have hfull : ((t1, v1) :: rest).filter (fun x => x.1.utc ≤ d.utc) =
            (t1, v1) :: rest := by
          apply List.filter_eq_self.mpr
          intro a ha
          have h3 := pairwise_fst_le_getLast ((t1, v1) :: rest)
            (by rw [List.pairwise_cons]; exact hs)
            (List.cons_ne_nil (t1, v1) rest) a ha
          rw [List.getLast?_eq_getLast _ (List.cons_ne_nil (t1, v1) rest)] at hpl
          rw [Option.some_inj.mp hpl] at h3
          simp only [decide_eq_true_eq]
          omega
        simp only [specPowerLookup, if_neg hq, lastLeValue]
        rw [hfull, List.getLast?_map, hpl]
        rfl
  · intro p hp hq
    rw [hA]
    cases hw : est.watts with
    | nil => exact absurd hw hne
    | cons hd1 rest =>
      obtain ⟨t1, v1⟩ := hd1
      rw [hw] at hp hs
      rcases List.mem_cons.mp hp with h | h
      · subst h
        simp [specPowerLookup, if_pos (le_of_eq hq)]
      · rw [List.pairwise_cons] at hs
        have h2 : t1.utc < p.1.utc := hs.1 p h
        have hq2 : ¬ (d.utc ≤ t1.utc) := by omega
        simp only [specPowerLookup, if_neg hq2, lastLeValue]
        have hcond : (fun x : DT × Int => decide (x.1.utc ≤ d.utc)) =
            (fun x : DT × Int => decide (x.1.utc ≤ p.1.utc)) := by
          funext x
          rw [hq]
        rw [hcond]
        exact filter_le_self_getLast ((t1, v1) :: rest)
          (by rw [List.pairwise_cons]; exact hs) p hp

/-- Witness for C1 at the concrete scenario estimate, querying at
2024-01-01T10:20:00Z: the lookup agrees with the spec policy and a query
exactly at the 10:15 sample returns that sample's own value. -/
theorem c1_step_lookup_witness :
    timedValue (normalizeQ (QTime.aware ⟨1704104400000000, 0⟩) c2estimate.timezone)
        c2estimate.watts =
      specPowerLookup (normalizeQ (QTime.aware ⟨1704104400000000, 0⟩) c2estimate.timezone)
        c2estimate.watts ∧
    timedValue (normalizeQ (QTime.aware t1015) c2estimate.timezone) c2estimate.watts =
      some 200 := by
  refine ⟨(c1_step_lookup c2estimate (by decide) (by decide)
    (QTime.aware ⟨1704104400000000, 0⟩)).1, ?_⟩
  exact (c1_step_lookup c2estimate (by decide) (by decide)
    (QTime.aware t1015)).2.2.2.2 (t1015, 200) (by decide) (by decide)

theorem mem_pyInsert {α κ : Type} [LinearOrder κ] (key : α → κ) (x z : α) :
    ∀ l : List α, z ∈ pyInsert key x l ↔ z = x ∨ z ∈ l := by
  intro l
  induction l with
  | nil => simp [pyInsert]
  | cons y ys ih =>
    by_cases h : key y < key x
    · simp only [pyInsert, if_pos h, List.mem_cons, ih]
      try tauto
    · simp only [pyInsert, if_neg h, List.mem_cons]
      try tauto

theorem pyInsert_pairwise {α κ : Type} [LinearOrder κ] (key : α → κ) (x : α) :
    ∀ l : List α, (l.Pairwise fun a b => key a ≤ key b) →
    (pyInsert key x l).Pairwise fun a b => key a ≤ key b := by
  intro l
  induction l with
  | nil => intro _; simp [pyInsert]
  | cons y ys ih =>
    intro hl
    rw [List.pairwise_cons] at hl
    by_cases h : key y < key x
    · rw [pyInsert, if_pos h, List.pairwise_cons]
      refine ⟨?_, ih hl.2⟩
      intro z hz
      rcases (mem_pyInsert key x z ys).mp hz with h2 | h2
      · rw [h2]; exact le_of_lt h
      · exact hl.1 z h2
    · rw [pyInsert, if_neg h, List.pairwise_cons]
      refine ⟨?_, List.pairwise_cons.mpr hl⟩
      intro z hz
      rcases List.mem_cons.mp hz with h2 | h2
      · rw [h2]; exact le_of_not_lt h
      · exact le_trans (le_of_not_lt h) (hl.1 z h2)

theorem pySorted_pairwise {α κ : Type} [LinearOrder κ] (key : α → κ) (l : List α) :
    (pySorted key l).Pairwise fun a b => key a ≤ key b := by
  induction l with
  | nil => simp [pySorted]
  | cons x xs ih => exact pyInsert_pairwise key x (pySorted key xs) ih

theorem pyInsert_perm {α κ : Type} [LinearOrder κ] (key : α → κ) (x : α) :
    ∀ l : List α, (pyInsert key x l).Perm (x :: l) := by
  intro l
  induction l with
  | nil => simp [pyInsert]
  | cons y ys ih =>
    by_cases h : key y < key x
    · rw [pyInsert, if_pos h]
      exact (List.Perm.cons y ih).trans (List.Perm.swap x y ys)
    · rw [pyInsert, if_neg h]

theorem pySorted_perm {α κ : Type} [LinearOrder κ] (key : α → κ) (l : List α) :
    (pySorted key l).Perm l := by
  induction l with
  | nil => simp [pySorted]
  | cons x xs ih =>
    exact (pyInsert_perm key x (pySorted key xs)).trans (List.Perm.cons x ih)

theorem pyInsert_eq_cons {α κ : Type} [LinearOrder κ] (key : α → κ) (x : α)
    (l : List α) (h : ∀ z ∈ l, ¬ key z < key x) : pyInsert key x l = x :: l := by
  cases l with
  | nil => rfl
  | cons y ys =>
    rw [pyInsert, if_neg (h y (List.mem_cons_self y ys))]

theorem filter_pyInsert {α κ : Type} [LinearOrder κ] (key : α → κ) (p : α → Bool)
    (x : α) : ∀ l : List α, (l.Pairwise fun a b => key a ≤ key b) →
    (pyInsert key x l).filter p =
      if p x then pyInsert key x (l.filter p) else l.filter p := by
  intro l
  induction l with
  | nil =>
    intro _
    cases hp : p x <;> simp [pyInsert, List.filter_cons, hp]
  | cons y ys ih =>
    intro hl
    rw [List.pairwise_cons] at hl
    by_cases h : key y < key x
    · rw [pyInsert, if_pos h]
      cases hpy : p y with
      | true =>
        rw [List.filter_cons_of_pos hpy, List.filter_cons_of_pos hpy, ih hl.2]
        cases hpx : p x with
        | true =>
          rw [if_pos rfl, if_pos rfl, pyInsert, if_pos h]
        | false =>
          rw [if_neg (by simp), if_neg (by simp)]
      | false =>
        rw [List.filter_cons_of_neg (by simp [hpy]),
          List.filter_cons_of_neg (by simp [hpy]), ih hl.2]
    · rw [pyInsert, if_neg h]
      cases hpx : p x with
      | true =>
        rw [List.filter_cons_of_pos hpx, if_pos rfl]
        rw [pyInsert_eq_cons key x ((y :: ys).filter p) ?_]
        intro z hz
        rcases List.mem_cons.mp (List.mem_of_mem_filter hz) with h2 | h2
        · rw [h2]; exact h
        · exact not_lt_of_le (le_trans (le_of_not_lt h) (hl.1 z h2))
      | false =>
        rw [List.filter_cons_of_neg (by simp [hpx]), if_neg (by simp)]

theorem pySorted_filter {α κ : Type} [LinearOrder κ] (key : α → κ) (p : α → Bool)
    (l : List α) : (pySorted key l).filter p = pySorted key (l.filter p) := by
  induction l with
  | nil => simp [pySorted]
  | cons x xs ih =>
    have hstep : pySorted key (x :: xs) = pyInsert key x (pySorted key xs) := rfl
    rw [hstep, filter_pyInsert key p x (pySorted key xs) (pySorted_pairwise key xs), ih]
    cases hpx : p x with
    | true =>
      rw [if_pos rfl, List.filter_cons_of_pos hpx]
      rfl
    | false =>
      rw [if_neg (by simp), List.filter_cons_of_neg (by simp [hpx])]

theorem phase1_skip (tz : Int) : ∀ (l : List Entry) (acc : List DT × List (DT × Int)),
    phase1 tz acc l = phase1 tz acc (l.filter keepsEntry) := by
  intro l
  induction l with
  | nil => intro acc; rfl
  | cons e rest ih =>
    intro acc
    cases he : e.t with
    | none =>
      rw [List.filter_cons_of_neg (by simp [keepsEntry, he])]
      simp only [phase1, he]
      exact ih acc
    | some s =>
      by_cases hs : s = ""
      · rw [List.filter_cons_of_neg (by simp [keepsEntry, he, hs])]
        simp only [phase1, he, if_pos hs]
        exact ih acc
      · rw [List.filter_cons_of_pos (by simp [keepsEntry, he, hs])]
        simp only [phase1, he, if_neg hs]
        cases hp : parseIso (pyReplaceZ s) with
        | none => rfl
        | some tUtc =>
          cases hw : pyIntOfPW e.pW with
          | none => rfl
          | some pw => exact ih _

theorem keeps_and_isSome (e : Entry) : (keepsEntry e && e.t.isSome) = keepsEntry e := by
  cases he : e.t with
  | none => simp [keepsEntry, he]
  | some s => by_cases hs : s = "" <;> simp [keepsEntry, he, hs]

theorem isSome_and_keeps (e : Entry) : (e.t.isSome && keepsEntry e) = keepsEntry e := by
  rw [Bool.and_comm]
  exact keeps_and_isSome e

theorem keeps_and_keeps (e : Entry) : (keepsEntry e && keepsEntry e) = keepsEntry e := by
  exact Bool.and_self _

theorem fromSMD_filter_keeps (entries : List Entry) (tz d : Int) :
    fromSolarManagerData entries tz d =
      fromSolarManagerData (entries.filter keepsEntry) tz d := by
  have hx : ((entries.filter fun e => e.t.isSome).filter keepsEntry) =
      entries.filter keepsEntry := by
    rw [List.filter_filter]
    exact List.filter_congr fun e _ => keeps_and_isSome e
  have hy : ((entries.filter keepsEntry).filter fun e => e.t.isSome) =
      entries.filter keepsEntry := by
    rw [List.filter_filter]
    exact List.filter_congr fun e _ => isSome_and_keeps e
  have hz : ((entries.filter keepsEntry).filter keepsEntry) =
      entries.filter keepsEntry := by
    rw [List.filter_filter]
    exact List.filter_congr fun e _ => Bool.and_self _
  have h1 : phase1 tz ([], [])
      (pySorted entryKey (entries.filter fun e => e.t.isSome)) =
      phase1 tz ([], [])
        (pySorted entryKey ((entries.filter keepsEntry).filter fun e => e.t.isSome)) := by
    rw [hy]
    rw [phase1_skip tz (pySorted entryKey (entries.filter fun e => e.t.isSome)),
        phase1_skip tz (pySorted entryKey (entries.filter keepsEntry))]
    rw [pySorted_filter, pySorted_filter, hx, hz]
  rw [fromSolarManagerData, fromSolarManagerData, h1]

/-- C6 corrected amended claim: construction is invariant under removing
the entries it excludes, namely exactly those whose t field is absent or
falsy (so such malformed entries are silently excluded and contribute
nothing); an entry with a missing pW is not excluded but kept with power
0; construction raises ValueError for a non-numeric pW rather than
excluding the entry (see the counterexample). -/
theorem c6_amended :
    (∀ (entries : List Entry) (tz : Int),
      fromSolarManagerData entries tz =
        fromSolarManagerData (entries.filter keepsEntry) tz) ∧
    fromSolarManagerData [⟨some "2024-01-01T10:00:00Z", none⟩] 0 =
      Except.ok ⟨0, [(t1000, 0)], [(t1000, 0)], [(t1000, 0)]⟩ := by
  exact ⟨fun entries tz => fromSMD_filter_keeps entries tz 900000000, by decide⟩

/-- C10: an entry whose t field is present but falsy (the empty string) is
discarded exactly like an entry lacking t: building with it equals building
with the t-less entry and equals building without the entry at all, so it
contributes nothing to watts, wh_period or wh_hours and never raises. -/
theorem c10_falsy_t (l1 l2 : List Entry) (p : Option JV) (tz : Int) :
    fromSolarManagerData (l1 ++ ⟨some "", p⟩ :: l2) tz =
      fromSolarManagerData (l1 ++ ⟨none, p⟩ :: l2) tz ∧
    fromSolarManagerData (l1 ++ ⟨some "", p⟩ :: l2) tz =
      fromSolarManagerData (l1 ++ l2) tz := by
  have key : ∀ e0 : Entry, keepsEntry e0 = false →
      fromSolarManagerData (l1 ++ e0 :: l2) tz =
        fromSolarManagerData (l1 ++ l2) tz := by
    intro e0 he
    rw [fromSMD_filter_keeps (l1 ++ e0 :: l2) tz 900000000,
        fromSMD_filter_keeps (l1 ++ l2) tz 900000000]
    rw [List.filter_append, List.filter_cons_of_neg (by simp [he]),
      List.filter_append]
  refine ⟨?_, key ⟨some "", p⟩ (by simp [keepsEntry])⟩
  rw [key ⟨some "", p⟩ (by simp [keepsEntry]), key ⟨none, p⟩ (by simp [keepsEntry])]

theorem dictSet_fresh (k : DT) (v : Int) : ∀ m : List (DT × Int),
    k ∉ m.map Prod.fst → dictSet k v m = m ++ [(k, v)] := by
  intro m
  induction m with
  | nil => intro _; rfl
  | cons hd rest ih =>
    intro hk
    obtain ⟨k1, v1⟩ := hd
    simp only [List.map_cons, List.mem_cons] at hk
    push_neg at hk
    rw [dictSet, if_neg hk.1, ih hk.2]
    rfl

theorem foldl_dictSet_append : ∀ (pairs m : List (DT × Int)),
    (pairs.map Prod.fst).Nodup →
    (∀ k ∈ pairs.map Prod.fst, k ∉ m.map Prod.fst) →
    pairs.foldl (fun acc p => dictSet p.1 p.2 acc) m = m ++ pairs := by
  intro pairs
  induction pairs with
  | nil => intro m _ _; simp
  | cons hd rest ih =>
    intro m hnd hdis
    obtain ⟨k, v⟩ := hd
    simp only [List.map_cons, List.nodup_cons] at hnd
    rw [List.foldl_cons]
    rw [dictSet_fresh k v m (hdis k (by simp))]
    rw [ih (m ++ [(k, v)]) hnd.2 ?_]
    · simp
    · intro k2 hk2
      simp only [List.map_append, List.mem_append]
      push_neg
      constructor
      · exact hdis k2 (by simp [hk2])
      · simp only [List.map_cons, List.map_nil, List.mem_singleton]
        intro heq
        rw [heq] at hk2
        exact hnd.1 hk2

theorem phase1_ok_spec (tz : Int) : ∀ (l : List Entry) (ts0 : List DT)
    (w0 : List (DT × Int)) (ts : List DT) (w : List (DT × Int)),
    phase1 tz (ts0, w0) l = Except.ok (ts, w) →
    ∃ pairs : List (DT × Int),
      ts = ts0 ++ pairs.map Prod.fst ∧
      w = pairs.foldl (fun acc p => dictSet p.1 p.2 acc) w0 ∧
      pairs.length = (l.filter keepsEntry).length := by
  intro l
  induction l with
  | nil =>
    intro ts0 w0 ts w h
    refine ⟨[], ?_, ?_, ?_⟩ <;> simp_all [phase1]
  | cons e rest ih =>
    intro ts0 w0 ts w h
    cases he : e.t with
    | none =>
      rw [phase1, he] at h
      obtain ⟨pairs, h1, h2, h3⟩ := ih ts0 w0 ts w h
      exact ⟨pairs, h1, h2, by
        rw [List.filter_cons_of_neg (by simp [keepsEntry, he])]
        exact h3⟩
    | some s =>
      by_cases hs : s = ""
      · simp only [phase1, he, if_pos hs] at h
        obtain ⟨pairs, h1, h2, h3⟩ := ih ts0 w0 ts w h
        exact ⟨pairs, h1, h2, by
          rw [List.filter_cons_of_neg (by simp [keepsEntry, he, hs])]
          exact h3⟩
      · simp only [phase1, he, if_neg hs] at h
        cases hp : parseIso (pyReplaceZ s) with
        | none =>
          simp only [hp] at h
          exact Except.noConfusion h
        | some tUtc =>
          simp only [hp] at h
          cases hw : pyIntOfPW e.pW with
          | none =>
            simp only [hw] at h
            exact Except.noConfusion h
          | some pw =>
            simp only [hw] at h
            obtain ⟨pairs, h1, h2, h3⟩ := ih _ _ ts w h
            refine ⟨(astz tUtc tz, pw) :: pairs, ?_, ?_, ?_⟩
            · rw [h1]
              simp
            · rw [h2]
              rfl
            · rw [List.filter_cons_of_pos (by simp [keepsEntry, he, hs])]
              simp [h3]

theorem periodsExact_keys (watts : List (DT × Int)) (dflt : Int) (hd : 0 < dflt) :
    ∀ ts : List DT, ts.Chain' (fun a b => a.utc < b.utc) →
    (periodsExact watts dflt ts).map Prod.fst = ts := by
  intro ts
  induction ts with
  | nil => intro _; rfl
  | cons t1 rest ih =>
    intro hc
    cases rest with
    | nil =>
      rw [periodsExact]
      dsimp only
      rw [if_neg (by omega)]
      rfl
    | cons t2 rest2 =>
      rw [List.chain'_cons] at hc
      rw [periodsExact]
      rw [if_neg (by have h2 := hc.1; omega)]
      simp only [List.singleton_append, List.map_cons]
      rw [ih hc.2]

theorem sumValues_dictInsertAdd (k : DT) (v : Int) : ∀ m : List (DT × Int),
    sumValues (dictInsertAdd k v m) = sumValues m + v := by
  intro m
  induction m with
  | nil => simp [dictInsertAdd, sumValues]
  | cons hd rest ih =>
    obtain ⟨k1, v1⟩ := hd
    by_cases h : k = k1
    · rw [dictInsertAdd, if_pos h]
      simp [sumValues]
      omega
    · rw [dictInsertAdd, if_neg h]
      simp only [sumValues, List.map_cons, List.sum_cons] at ih ⊢
      omega

theorem sumValues_foldl_insertAdd : ∀ (ps : List (DT × Int)) (m : List (DT × Int)),
    sumValues (ps.foldl (fun acc p => dictInsertAdd (hourStart p.1) p.2 acc) m) =
      sumValues m + (ps.map Prod.snd).sum := by
  intro ps
  induction ps with
  | nil => intro m; simp
  | cons hd rest ih =>
    intro m
    rw [List.foldl_cons, ih, sumValues_dictInsertAdd]
    simp only [List.map_cons, List.sum_cons]
    omega

theorem roundHalfEvenScaled_err (n : Int) :
    2 * (roundHalfEvenScaled n microsPerHour * microsPerHour - n) ≤ microsPerHour ∧
    -microsPerHour ≤ 2 * (roundHalfEvenScaled n microsPerHour * microsPerHour - n) := by
  simp only [roundHalfEvenScaled, microsPerHour]
  split_ifs <;> constructor <;> omega

theorem sum_round_err (l : List Int) :
    2 * |(l.map fun n => roundHalfEvenScaled n microsPerHour).sum * microsPerHour - l.sum| ≤
      (l.length : Int) * microsPerHour := by
  induction l with
  | nil => simp
  | cons n rest ih =>
    have hsplit : (((n :: rest).map fun m => roundHalfEvenScaled m microsPerHour).sum *
        microsPerHour - (n :: rest).sum) =
        (roundHalfEvenScaled n microsPerHour * microsPerHour - n) +
        ((rest.map fun m => roundHalfEvenScaled m microsPerHour).sum * microsPerHour -
          rest.sum) := by
      simp only [List.map_cons, List.sum_cons]
      ring
    rw [hsplit]
    have habs := abs_add (roundHalfEvenScaled n microsPerHour * microsPerHour - n)
      ((rest.map fun m => roundHalfEvenScaled m microsPerHour).sum * microsPerHour - rest.sum)
    have hn := roundHalfEvenScaled_err n
    have hnabs : 2 * |roundHalfEvenScaled n microsPerHour * microsPerHour - n| ≤
        microsPerHour := by
      rcases abs_cases (roundHalfEvenScaled n microsPerHour * microsPerHour - n) with
        ⟨heq, _⟩ | ⟨heq, _⟩ <;> rw [heq] <;> omega
    have hlen : ((n :: rest).length : Int) * microsPerHour =
        (rest.length : Int) * microsPerHour + microsPerHour := by
      simp only [List.length_cons]
      push_cast
      ring
    rw [hlen]
    have h2 : (2 : Int) * |(roundHalfEvenScaled n microsPerHour * microsPerHour - n) +
        ((rest.map fun m => roundHalfEvenScaled m microsPerHour).sum * microsPerHour -
          rest.sum)| ≤
        2 * |roundHalfEvenScaled n microsPerHour * microsPerHour - n| +
        2 * |(rest.map fun m => roundHalfEvenScaled m microsPerHour).sum * microsPerHour -
          rest.sum| := by
      omega
    omega

theorem foldl_dictSet_map_append (f : Int → Int) : ∀ (ps m : List (DT × Int)),
    (ps.map Prod.fst).Nodup →
    (∀ k ∈ ps.map Prod.fst, k ∉ m.map Prod.fst) →
    ps.foldl (fun acc p => dictSet p.1 (f p.2) acc) m =
      m ++ ps.map fun p => (p.1, f p.2) := by
  intro ps
  induction ps with
  | nil => intro m _ _; simp
  | cons hd rest ih =>
    intro m hnd hdis
    obtain ⟨k, v⟩ := hd
    simp only [List.map_cons, List.nodup_cons] at hnd
    rw [List.foldl_cons]
    rw [dictSet_fresh k (f v) m (by simpa using hdis k (by simp))]
    rw [ih (m ++ [(k, f v)]) hnd.2 ?_]
    · simp
    · intro k2 hk2
      simp only [List.map_append, List.mem_append]
      push_neg
      refine ⟨hdis k2 (by simp [hk2]), ?_⟩
      simp only [List.map_cons, List.map_nil, List.mem_singleton]
      intro heq
      rw [heq] at hk2
      exact hnd.1 hk2

theorem build_structure (entries : List Entry) (tz : Int) (est : Estimate)
    (h : fromSolarManagerData entries tz = Except.ok est)
    (hinc : (localTimestamps entries tz).Pairwise fun a b => a.utc < b.utc) :
    est.watts.map Prod.fst = localTimestamps entries tz ∧
    est.watts.length = (entries.filter keepsEntry).length ∧
    (periodsExact est.watts 900000000 (localTimestamps entries tz)).map Prod.fst =
      localTimestamps entries tz ∧
    est.wh_period = (periodsExact est.watts 900000000 (localTimestamps entries tz)).map
      (fun p => (p.1, roundHalfEvenScaled p.2 microsPerHour)) ∧
    est.wh_hours = ((periodsExact est.watts 900000000 (localTimestamps entries tz)).foldl
      (fun m p => dictInsertAdd (hourStart p.1) p.2 m) []).map
      (fun p => (p.1, roundHalfEvenScaled p.2 microsPerHour)) := by
  rw [fromSolarManagerData] at h
  cases hph : phase1 tz ([], []) (pySorted entryKey (entries.filter fun e => e.t.isSome)) with
  | error err =>
    rw [hph] at h
    exact Except.noConfusion h
  | ok tsw =>
    obtain ⟨ts, w⟩ := tsw
    rw [hph] at h
    simp only [] at h
    have hest := Except.ok.inj h
    subst hest
    have hlocal : localTimestamps entries tz = ts := by
      rw [localTimestamps, hph]
    rw [hlocal] at hinc ⊢
    obtain ⟨pairs, h1, h2, h3⟩ := phase1_ok_spec tz _ [] [] ts w hph
    rw [List.nil_append] at h1
    have hpw : (pairs.map Prod.fst).Pairwise fun a b => a.utc < b.utc := by
      rw [← h1]
      exact hinc
    have hnodup : (pairs.map Prod.fst).Nodup := by
      exact hpw.imp fun hlt => by
        intro heq
        rw [heq] at hlt
        exact lt_irrefl _ hlt
    have hw_eq : w = pairs := by
      rw [h2]
      have := foldl_dictSet_append pairs [] hnodup (by simp)
      simpa using this
    have hkeys : (periodsExact w 900000000 ts).map Prod.fst = ts := by
      apply periodsExact_keys w 900000000 (by norm_num) ts
      exact hinc.chain'
    have hpnodup : ((periodsExact w 900000000 ts).map Prod.fst).Nodup := by
      rw [hkeys, h1]
      exact hnodup
    refine ⟨?_, ?_, ?_, ?_, ?_⟩
    · rw [hw_eq, h1]
    · rw [hw_eq]
      rw [h3]
      have hperm := (pySorted_perm entryKey (entries.filter fun e => e.t.isSome)).filter
        keepsEntry
      rw [hperm.length_eq, List.filter_filter]
      have hx2 : List.filter (fun a => keepsEntry a && a.t.isSome) entries =
          List.filter keepsEntry entries := List.filter_congr fun e _ => keeps_and_isSome e
      rw [hx2]
    · exact hkeys
    · have := foldl_dictSet_map_append (fun n => roundHalfEvenScaled n microsPerHour)
        (periodsExact w 900000000 ts) [] hpnodup (by simp)
      simpa using this
    · rfl

/-- C5 corrected amended claim: provided the parsed localized timestamps,
taken in the string-sorted order the code uses, are strictly increasing
(as they are when all t strings share one UTC offset and format, but not
for mixed offsets, see the counterexample), the key sequences of watts and
wh_period in a successfully built Estimate are strictly increasing in
stored order, wh_period has the same keys as watts, and there is exactly
one watts key per kept (present, truthy t) input sample. -/
theorem c5_amended (entries : List Entry) (tz : Int) (est : Estimate)
    (h : fromSolarManagerData entries tz = Except.ok est)
    (hinc : (localTimestamps entries tz).Pairwise fun a b => a.utc < b.utc) :
    est.watts.map Prod.fst = localTimestamps entries tz ∧
    (est.watts.map Prod.fst).Pairwise (fun a b => a.utc < b.utc) ∧
    est.wh_period.map Prod.fst = est.watts.map Prod.fst ∧
    est.watts.length = (entries.filter keepsEntry).length := by
  obtain ⟨hw, hlen, hkeys, hper, _⟩ := build_structure entries tz est h hinc
  refine ⟨hw, by rw [hw]; exact hinc, ?_, hlen⟩
  rw [hper, hw, List.map_map]
  have hcomp : (Prod.fst ∘ fun p : DT × Int =>
      (p.1, roundHalfEvenScaled p.2 microsPerHour)) = Prod.fst := by
    funext p
    rfl
  rw [hcomp, hkeys]

/-- Witness for C5 at the concrete three-sample scenario. -/
theorem c5_amended_witness :
    (localTimestamps c2entries 0).Pairwise (fun a b => a.utc < b.utc) ∧
    (c2estimate.watts.map Prod.fst = localTimestamps c2entries 0 ∧
     (c2estimate.watts.map Prod.fst).Pairwise (fun a b => a.utc < b.utc) ∧
     c2estimate.wh_period.map Prod.fst = c2estimate.watts.map Prod.fst ∧
     c2estimate.watts.length = (c2entries.filter keepsEntry).length) := by
  exact ⟨by decide, c5_amended c2entries 0 c2estimate (by decide) (by decide)⟩

/-- C8 corrected amended claim: for a successfully built Estimate with
strictly increasing sample timestamps, the sums of wh_period and wh_hours
differ by at most 0.5 times (number of periods + number of hour buckets):
each side rounds the same exact energies once per period respectively once
per hour bucket, so each bucket contributes at most one half.  The original
0.5-times-periods bound is too tight (see the counterexample). -/
theorem c8_amended (entries : List Entry) (tz : Int) (est : Estimate)
    (h : fromSolarManagerData entries tz = Except.ok est)
    (hinc : (localTimestamps entries tz).Pairwise fun a b => a.utc < b.utc) :
    2 * |sumValues est.wh_period - sumValues est.wh_hours| ≤
      (est.wh_period.length : Int) + (est.wh_hours.length : Int) := by
  obtain ⟨hw, hlen, hkeys, hper, hhrs⟩ := build_structure entries tz est h hinc
  have hcomp : (Prod.snd ∘ fun p : DT × Int =>
      (p.1, roundHalfEvenScaled p.2 microsPerHour)) =
      (fun n => roundHalfEvenScaled n microsPerHour) ∘ Prod.snd := by
    funext p
    rfl
  have hsumP : sumValues est.wh_period =
      (((periodsExact est.watts 900000000 (localTimestamps entries tz)).map
        Prod.snd).map fun n => roundHalfEvenScaled n microsPerHour).sum := by
    rw [hper, sumValues, List.map_map, hcomp, ← List.map_map]
  have hsumH : sumValues est.wh_hours =
      ((((periodsExact est.watts 900000000 (localTimestamps entries tz)).foldl
        (fun m p => dictInsertAdd (hourStart p.1) p.2 m) []).map
        Prod.snd).map fun n => roundHalfEvenScaled n microsPerHour).sum := by
    rw [hhrs, sumValues, List.map_map, hcomp, ← List.map_map]
  have hlenP : est.wh_period.length =
      (periodsExact est.watts 900000000 (localTimestamps entries tz)).length := by
    rw [hper, List.length_map]
  have hlenH : est.wh_hours.length =
      ((periodsExact est.watts 900000000 (localTimestamps entries tz)).foldl
        (fun m p => dictInsertAdd (hourStart p.1) p.2 m) []).length := by
    rw [hhrs, List.length_map]
  have hE : (((periodsExact est.watts 900000000 (localTimestamps entries tz)).foldl
      (fun m p => dictInsertAdd (hourStart p.1) p.2 m) []).map Prod.snd).sum =
      ((periodsExact est.watts 900000000 (localTimestamps entries tz)).map
        Prod.snd).sum := by
    have h0 := sumValues_foldl_insertAdd
      (periodsExact est.watts 900000000 (localTimestamps entries tz)) []
    simpa [sumValues] using h0
  have hbP := sum_round_err
    ((periodsExact est.watts 900000000 (localTimestamps entries tz)).map Prod.snd)
  have hbH := sum_round_err
    (((periodsExact est.watts 900000000 (localTimestamps entries tz)).foldl
      (fun m p => dictInsertAdd (hourStart p.1) p.2 m) []).map Prod.snd)
  rw [List.length_map] at hbP hbH
  rw [hE] at hbH
  rw [hsumP, hsumH, hlenP, hlenH]
  have hDpos : (0 : Int) < microsPerHour := by norm_num [microsPerHour]
  apply le_of_mul_le_mul_right ?_ hDpos
  have habs := abs_add
    ((((periodsExact est.watts 900000000 (localTimestamps entries tz)).map
      Prod.snd).map fun n => roundHalfEvenScaled n microsPerHour).sum * microsPerHour -
      ((periodsExact est.watts 900000000 (localTimestamps entries tz)).map Prod.snd).sum)
    (-(((((periodsExact est.watts 900000000 (localTimestamps entries tz)).foldl
      (fun m p => dictInsertAdd (hourStart p.1) p.2 m) []).map
      Prod.snd).map fun n => roundHalfEvenScaled n microsPerHour).sum * microsPerHour -
      ((periodsExact est.watts 900000000 (localTimestamps entries tz)).map Prod.snd).sum))
  rw [abs_neg, ← sub_eq_add_neg] at habs
  have heq : ((((periodsExact est.watts 900000000 (localTimestamps entries tz)).map
      Prod.snd).map fun n => roundHalfEvenScaled n microsPerHour).sum -
      ((((periodsExact est.watts 900000000 (localTimestamps entries tz)).foldl
      (fun m p => dictInsertAdd (hourStart p.1) p.2 m) []).map
      Prod.snd).map fun n => roundHalfEvenScaled n microsPerHour).sum) * microsPerHour =
      ((((periodsExact est.watts 900000000 (localTimestamps entries tz)).map
      Prod.snd).map fun n => roundHalfEvenScaled n microsPerHour).sum * microsPerHour -
      ((periodsExact est.watts 900000000 (localTimestamps entries tz)).map Prod.snd).sum) -
      (((((periodsExact est.watts 900000000 (localTimestamps entries tz)).foldl
      (fun m p => dictInsertAdd (hourStart p.1) p.2 m) []).map
      Prod.snd).map fun n => roundHalfEvenScaled n microsPerHour).sum * microsPerHour -
      ((periodsExact est.watts 900000000 (localTimestamps entries tz)).map Prod.snd).sum) := by
    ring
  calc 2 * |(((periodsExact est.watts 900000000 (localTimestamps entries tz)).map
        Prod.snd).map fun n => roundHalfEvenScaled n microsPerHour).sum -
        ((((periodsExact est.watts 900000000 (localTimestamps entries tz)).foldl
        (fun m p => dictInsertAdd (hourStart p.1) p.2 m) []).map
        Prod.snd).map fun n => roundHalfEvenScaled n microsPerHour).sum| * microsPerHour
      = 2 * |((((periodsExact est.watts 900000000 (localTimestamps entries tz)).map
        Prod.snd).map fun n => roundHalfEvenScaled n microsPerHour).sum -
        ((((periodsExact est.watts 900000000 (localTimestamps entries tz)).foldl
        (fun m p => dictInsertAdd (hourStart p.1) p.2 m) []).map
        Prod.snd).map fun n => roundHalfEvenScaled n microsPerHour).sum) * microsPerHour| := by
        rw [abs_mul, abs_of_nonneg (le_of_lt hDpos)]
        ring
    _ ≤ (((periodsExact est.watts 900000000 (localTimestamps entries tz)).length : Int) +
        (((periodsExact est.watts 900000000 (localTimestamps entries tz)).foldl
        (fun m p => dictInsertAdd (hourStart p.1) p.2 m) []).length : Int)) *
        microsPerHour := by
        rw [heq]
        have hgoal : (((periodsExact est.watts 900000000
            (localTimestamps entries tz)).length : Int) +
            (((periodsExact est.watts 900000000 (localTimestamps entries tz)).foldl
            (fun m p => dictInsertAdd (hourStart p.1) p.2 m) []).length : Int)) *
            microsPerHour =
            ((periodsExact est.watts 900000000
              (localTimestamps entries tz)).length : Int) * microsPerHour +
            (((periodsExact est.watts 900000000 (localTimestamps entries tz)).foldl
            (fun m p => dictInsertAdd (hourStart p.1) p.2 m) []).length : Int) *
            microsPerHour := by
          ring
        rw [hgoal]
        linarith [habs, hbP, hbH]

/-- Witness for C8 at the concrete three-sample scenario: the two sums are
both 75 and the bound 0.5 times (3 periods + 1 hour) holds. -/
theorem c8_amended_witness :
    (localTimestamps c2entries 0).Pairwise (fun a b => a.utc < b.utc) ∧
    2 * |sumValues c2estimate.wh_period - sumValues c2estimate.wh_hours| ≤
      (c2estimate.wh_period.length : Int) + (c2estimate.wh_hours.length : Int) := by
  exact ⟨by decide, c8_amended c2entries 0 c2estimate (by decide) (by decide)⟩
